import Mathlib

/-!
Shallow embedding of `src/jsi/__init__.py` (the `jsi` playlist reconciler).

The remote Jellyfin server is modelled as a `Client` record of pure lookup
functions (the program is single-threaded and issues blocking queries, so a
run is a pure function of the server's contents).  The rapidfuzz similarity
`fuzz.QRatio(·, ·, processor=utils.default_process)` is a third-party pure
function of two strings returning a score in `[0, 100]`; it is modelled as an
abstract parameter `sim : String → String → ℚ` (the float score), and the
threshold `ctx.params.get("fuzz")` as a rational `fuzz`.  Side effects that
mutate the server (the two `client._post` calls in `create_playlist`) are
reified as a returned list of `Call` values; log lines and reads have no
observable effect on the server and are not reified except where a claim
needs them (`NetEvent` for the `main` flow).
-/

namespace Jsi

/-- A music album item as returned by the Jellyfin items query
(`Id`, `Name`, and the `ProductionYear` the listing is sorted by). -/
structure Album where
  id : String
  name : String
  productionYear : Int
deriving DecidableEq, Repr

/-- An audio track item (`Id`, `Name`). -/
structure Track where
  id : String
  name : String
deriving DecidableEq, Repr

/-- One row of the import file: `{trackName, artistName, albumName}`. -/
structure TrackDescriptor where
  trackName : String
  artistName : String
  albumName : String
deriving DecidableEq, Repr

/-- A playlist item under the manual-playlists folder (`Id`, `Name`). -/
structure Playlist where
  id : String
  name : String
deriving DecidableEq, Repr

/-- A Jellyfin user (`Name`, `Id`). -/
structure User where
  name : String
  id : String
deriving DecidableEq, Repr

/-- The remote library, as seen through the read-only queries the program
issues.  `artistId` is `client._get("/Artists/{artist}").get("Id")`, with
`none` standing for the `HTTPException` branch; `albums` is the
`MusicAlbum` items query under an artist id (the server returns it sorted
by `ProductionYear` ascending, as requested); `tracks` is the recursive
`Audio` items query under an album id; `playlists` is the item listing of
the manual-playlists folder; `playlistItems` lists the item ids of a
playlist id. -/
structure Client where
  artistId : String → Option String
  albums : String → List Album
  tracks : String → List Track
  playlists : List Playlist
  playlistItems : String → List String

/-- `get_all_albums(artist, client)`: resolve the artist name to an id
(returning `[]` on `HTTPException`) and list its albums. -/
def get_all_albums (c : Client) (artist : String) : List Album :=
  match c.artistId artist with
  | none => []
  | some aid => c.albums aid

/-- `get_all_tracks(artist, album, client)`: start from the empty response
and, for every album of the artist whose name matches `album` with
similarity at least the threshold, overwrite the response with that album's
track listing.  (The Python loop reassigns `response` on every match, so
only the last matching album's tracks survive.) -/
def get_all_tracks (sim : String → String → ℚ) (fuzz : ℚ) (c : Client)
    (artist album : String) : List Track :=
  (get_all_albums c artist).foldl
    (fun response item =>
      if sim item.name album ≥ fuzz then c.tracks item.id else response)
    []

/-- The first loop of `get_music`: the first track of the named album's
listing whose name matches the descriptor's `trackName` at the threshold. -/
def named_album_search (sim : String → String → ℚ) (fuzz : ℚ) (c : Client)
    (track : TrackDescriptor) : Option Track :=
  (get_all_tracks sim fuzz c track.artistName track.albumName).find?
    (fun item => decide (sim item.name track.trackName ≥ fuzz))

/-- The `any_album` fallback loop of `get_music`: for each album of the
artist in listing order, run the per-album track search and return the
first id whose track name matches the descriptor's `trackName` at the
threshold. -/
def any_album_search (sim : String → String → ℚ) (fuzz : ℚ) (c : Client)
    (track : TrackDescriptor) : Option String :=
  (get_all_albums c track.artistName).findSome? (fun album =>
    ((get_all_tracks sim fuzz c track.artistName album.name).find?
      (fun item => decide (sim item.name track.trackName ≥ fuzz))).map
      (fun item => item.id))

/-- `get_music(track, client)`: search the named album's tracks for a name
matching `trackName` at the threshold; failing that, when the `any_album`
flag is set, repeat the per-album track search over every album of the
artist; otherwise report the track unresolved (`none`). -/
def get_music (sim : String → String → ℚ) (fuzz : ℚ) (anyAlbum : Bool)
    (c : Client) (track : TrackDescriptor) : Option String :=
  match named_album_search sim fuzz c track with
  | some item => some item.id
  | none =>
    if anyAlbum then any_album_search sim fuzz c track
    else none

/-- `get_playlist(name, client, user_id)`: the first playlist of that name
under the manual-playlists folder, or `{}` (here `none`). -/
def get_playlist (c : Client) (name : String) : Option Playlist :=
  c.playlists.find? (fun p => p.name == name)

/-- `get_playlist_items(name, client, user_id)`: the set of item ids of the
playlist of that name, empty when the playlist does not exist. -/
def get_playlist_items (c : Client) (name : String) : Finset String :=
  match get_playlist c name with
  | some p => (c.playlistItems p.id).toFinset
  | none => ∅

/-- A server-mutating POST issued by `create_playlist`. -/
inductive Call where
  /-- `POST /Playlists` with name, `IsPublic`, and the resolved ids. -/
  | createPlaylist (name : String) (isPublic : Bool) (ids : Finset String)
  /-- `POST /Playlists/{playlistId}/Items` appending `ids`. -/
  | appendItems (playlistId : String) (ids : Finset String)
deriving DecidableEq

/-- The set `jellyfin_tracks` built inside `create_playlist`: resolve every
non-`None` descriptor through `get_music` and collect the successful ids
into a set. -/
def resolved_tracks (sim : String → String → ℚ) (fuzz : ℚ) (anyAlbum : Bool)
    (c : Client) (tracks : List (Option TrackDescriptor)) : Finset String :=
  (tracks.filterMap (fun tr => tr.bind (get_music sim fuzz anyAlbum c))).toFinset

/-- `create_playlist(name, tracks, client, user)`: the list of POSTs issued.
An empty resolved set skips everything; an existing playlist gets (at most)
one append of the difference `jellyfin_tracks \ playlist_tracks`; a missing
playlist gets one creation; `--dry-run` suppresses both POSTs. -/
def create_playlist (sim : String → String → ℚ) (fuzz : ℚ)
    (anyAlbum isPublic dryRun : Bool) (c : Client)
    (name : String) (tracks : List (Option TrackDescriptor)) : List Call :=
  let jellyfin_tracks := resolved_tracks sim fuzz anyAlbum c tracks
  if jellyfin_tracks ≠ ∅ then
    match get_playlist c name with
    | some playlist =>
      let playlist_tracks := get_playlist_items c name
      let new_tracks := jellyfin_tracks \ playlist_tracks
      if new_tracks ≠ ∅ then
        if !dryRun then [Call.appendItems playlist.id new_tracks] else []
      else []
    | none =>
      if !dryRun then [Call.createPlaylist name isPublic jellyfin_tracks] else []
  else []

/-- `get_user_id(client, username)`: scan all users, keeping the id of the
last one whose name matches; a missing user (or a falsy id) is a fatal
error (`sys.exit(1)`), modelled as `none`. -/
def get_user_id (users : List User) (username : String) : Option String :=
  match users.foldl
      (fun acc u => if u.name = username then some u.id else acc)
      none with
  | some i => if i = "" then none else some i
  | none => none

/-- A network interaction of the `main` flow, in program order:
authentication of the Jellyfin client, the `get_users` lookup, then the
reconciler's POSTs. -/
inductive NetEvent where
  | authenticate
  | getUsers
  | reconcile (call : Call)
deriving DecidableEq

/-- The columns the CSV branch of `main` requires. -/
def requiredFields : List String := ["trackName", "artistName", "albumName"]

/-- The `--csv` path of `main`: build the client (authenticating), resolve
the user id (exiting 1 when absent), then check the CSV header and either
reconcile the rows into a playlist named after the file stem or log an
error and exit 1.  Returns the network events in order and the exit status
(`some n` for `sys.exit(n)`, `none` for a normal return). -/
def main_csv (sim : String → String → ℚ) (fuzz : ℚ)
    (anyAlbum isPublic dryRun : Bool) (c : Client) (users : List User)
    (username stem : String) (fieldnames : List String)
    (rows : List TrackDescriptor) : List NetEvent × Option Nat :=
  let ev := [NetEvent.authenticate, NetEvent.getUsers]
  match get_user_id users username with
  | none => (ev, some 1)
  | some _uid =>
    if requiredFields.all (fun f => fieldnames.contains f) then
      (ev ++ (create_playlist sim fuzz anyAlbum isPublic dryRun c stem
        (rows.map some)).map NetEvent.reconcile, none)
    else
      (ev, some 1)

/-- The validator of the `--fuzz` option: `click.IntRange(80, 100)` accepts
exactly the integers between 80 and 100. -/
def fuzz_option_accepts (t : Int) : Bool :=
  decide (80 ≤ t) && decide (t ≤ 100)

/-- The default of the `--fuzz` option. -/
def fuzz_default : Int := 100

/-- The albums of the artist whose names match the queried album name at
the threshold, in listing order (the candidates of the loop in
`get_all_tracks`). -/
def matching_albums (sim : String → String → ℚ) (fuzz : ℚ) (c : Client)
    (artist album : String) : List Album :=
  (get_all_albums c artist).filter (fun a => decide (sim a.name album ≥ fuzz))

/-- The membership of playlist `pid` after the issued calls are applied to
a server whose playlist currently holds `current`: an append to `pid`
unions in the sent ids; no call of the program removes items. -/
def membership_after (current : Finset String) (calls : List Call)
    (pid : String) : Finset String :=
  calls.foldl (fun m call =>
    match call with
    | Call.appendItems q ids => if q = pid then m ∪ ids else m
    | Call.createPlaylist _ _ _ => m) current

/-- Modelled from the spec: one lookup through a `functools.cache`-style
memo table (an association list of argument/result pairs).  A hit answers
from the table with no remote query; a miss runs the underlying function
once (one remote query) and records the result. -/
def memo_call {κ α : Type} [DecidableEq κ] (f : κ → α)
    (cache : List (κ × α)) (k : κ) : α × List (κ × α) × Nat :=
  match cache.find? (fun e => decide (e.1 = k)) with
  | some e => (e.2, cache, 0)
  | none => (f k, (k, f k) :: cache, 1)

/-- Modelled from the spec: a single run performing a sequence of memoized
lookups, threading the memo table and counting the remote queries issued. -/
def memo_run {κ α : Type} [DecidableEq κ] (f : κ → α) :
    List κ → List (κ × α) → List α × Nat
  | [], _ => ([], 0)
  | k :: ks, cache =>
    let r := memo_call f cache k
    let rest := memo_run f ks r.2.1
    (r.1 :: rest.1, r.2.2 + rest.2)

/-- Exact-match similarity: a concrete stand-in for the rapidfuzz score
used to instantiate the abstract `sim` parameter on concrete inputs
(`QRatio` of two equal strings is 100; of two disjoint single letters 0). -/
def exSim : String → String → ℚ := fun a b => if a = b then 100 else 0

/-- A one-artist, one-album, one-track library: the artist `ar` has the
single album `X` holding the single track `T`. -/
def exClient : Client where
  artistId := fun a => if a = "ar" then some "arid" else none
  albums := fun aid => if aid = "arid" then [⟨"alid", "X", 2000⟩] else []
  tracks := fun aid => if aid = "alid" then [⟨"tid", "T"⟩] else []
  playlists := []
  playlistItems := fun _ => []

/-- A descriptor naming track `T` by artist `ar` on an album `Y` the
library does not have. -/
def exDesc : TrackDescriptor := ⟨"T", "ar", "Y"⟩

/-- A library with artist `artist` holding the distinctly-named albums
`Alpha` (track `Song One`) and `Beta` (track `Song Two`), and an existing
playlist `mylist` already containing `t2`. -/
def wClient : Client where
  artistId := fun a => if a = "artist" then some "A1" else none
  albums := fun aid => if aid = "A1" then
      [⟨"alb1", "Alpha", 1990⟩, ⟨"alb2", "Beta", 1995⟩] else []
  tracks := fun aid =>
    if aid = "alb1" then [⟨"t1", "Song One"⟩]
    else if aid = "alb2" then [⟨"t2", "Song Two"⟩]
    else []
  playlists := [⟨"pl1", "mylist"⟩]
  playlistItems := fun pid => if pid = "pl1" then ["t2"] else []

/-- A descriptor resolving to `t1` in `wClient`. -/
def dOne : TrackDescriptor := ⟨"Song One", "artist", "Alpha"⟩

/-- A descriptor resolving to `t2` in `wClient`. -/
def dTwo : TrackDescriptor := ⟨"Song Two", "artist", "Beta"⟩

/-- A library whose artist has two albums both named `Gamma` (production
years 1990 and 1995) with different track lists. -/
def w9Client : Client where
  artistId := fun a => if a = "artist" then some "A1" else none
  albums := fun aid => if aid = "A1" then
      [⟨"alb1", "Gamma", 1990⟩, ⟨"alb2", "Gamma", 1995⟩] else []
  tracks := fun aid =>
    if aid = "alb1" then [⟨"t1", "Song One"⟩]
    else if aid = "alb2" then [⟨"t2", "Song Two"⟩]
    else []
  playlists := []
  playlistItems := fun _ => []

/-- A fold that overwrites its accumulator at every element satisfying `p`
computes the image of the last such element (or the initial value). -/
theorem foldl_overwrite {α β : Type} (p : α → Bool) (f : α → β) :
    ∀ (l : List α) (init : β),
      l.foldl (fun r a => if p a then f a else r) init
        = ((l.filter p).getLast?.map f).getD init
  | [], _ => rfl
  | a :: l, init => by
    simp only [List.foldl_cons, List.filter_cons]
    cases hp : p a with
    | false => simp only [Bool.false_eq_true, if_false, foldl_overwrite p f l init]
    | true =>
      simp only [if_true]
      rw [foldl_overwrite p f l (f a), List.getLast?_cons]
      cases h : (l.filter p).getLast? with
      | none => simp
      | some b => simp

/-- `get_all_tracks` returns the track listing of the *last* album of the
artist whose name matches the query at the threshold, and `[]` when no
album matches. -/
theorem get_all_tracks_eq (sim : String → String → ℚ) (fuzz : ℚ) (c : Client)
    (artist album : String) :
    get_all_tracks sim fuzz c artist album
      = (((matching_albums sim fuzz c artist album).getLast?.map
          (fun a => c.tracks a.id)).getD []) := by
  unfold get_all_tracks matching_albums
  rw [show (fun (response : List Track) (item : Album) =>
        if sim item.name album ≥ fuzz then c.tracks item.id else response)
      = (fun response item =>
        if (fun a : Album => decide (sim a.name album ≥ fuzz)) item
        then c.tracks item.id else response) from ?_]
  · exact foldl_overwrite _ _ _ _
  · funext r a
    by_cases h : sim a.name album ≥ fuzz <;> simp [h]

/-- Every track returned by `get_all_tracks` lives in a matching album of
the artist, and the whole result is that album's listing. -/
theorem mem_get_all_tracks {sim : String → String → ℚ} {fuzz : ℚ}
    {c : Client} {artist album : String} {t : Track}
    (h : t ∈ get_all_tracks sim fuzz c artist album) :
    ∃ a ∈ get_all_albums c artist, sim a.name album ≥ fuzz ∧
      t ∈ c.tracks a.id ∧
      get_all_tracks sim fuzz c artist album = c.tracks a.id := by
  rw [get_all_tracks_eq] at h
  cases hl : (matching_albums sim fuzz c artist album).getLast? with
  | none => rw [hl] at h; simp at h
  | some a =>
    rw [hl] at h
    simp only [Option.map_some', Option.getD_some] at h
    have ha : a ∈ matching_albums sim fuzz c artist album :=
      List.mem_of_mem_getLast? hl
    rw [matching_albums, List.mem_filter] at ha
    refine ⟨a, ha.1, of_decide_eq_true ha.2, h, ?_⟩
    rw [get_all_tracks_eq, hl]
    simp

/-- A successful `named_album_search` yields a track of the named-album
listing matching `trackName` at the threshold. -/
theorem named_album_search_some {sim : String → String → ℚ} {fuzz : ℚ}
    {c : Client} {d : TrackDescriptor} {item : Track}
    (h : named_album_search sim fuzz c d = some item) :
    item ∈ get_all_tracks sim fuzz c d.artistName d.albumName ∧
      sim item.name d.trackName ≥ fuzz := by
  refine ⟨List.mem_of_find?_eq_some h, ?_⟩
  have hp := List.find?_some h
  simpa using hp

/-- A successful `any_album_search` yields, for some album of the artist,
a track of that album's per-name search matching `trackName` at the
threshold. -/
theorem any_album_search_some {sim : String → String → ℚ} {fuzz : ℚ}
    {c : Client} {d : TrackDescriptor} {i : String}
    (h : any_album_search sim fuzz c d = some i) :
    ∃ album ∈ get_all_albums c d.artistName,
      ∃ item ∈ get_all_tracks sim fuzz c d.artistName album.name,
        item.id = i ∧ sim item.name d.trackName ≥ fuzz := by
  obtain ⟨album, halbum, hfs⟩ := List.exists_of_findSome?_eq_some h
  cases hfind : (get_all_tracks sim fuzz c d.artistName album.name).find?
      (fun item => decide (sim item.name d.trackName ≥ fuzz)) with
  | none => rw [hfind] at hfs; simp at hfs
  | some item =>
    rw [hfind] at hfs
    have hp := List.find?_some hfind
    refine ⟨album, halbum, item, List.mem_of_find?_eq_some hfind, ?_, by simpa using hp⟩
    simpa using hfs

/-- Whenever `get_music` resolves a descriptor to an id, some album of the
artist contains a track with that id whose name matches the descriptor's
`trackName` at the threshold; when the any-album flag is unset, that album's
name moreover matches the descriptor's `albumName` at the threshold. -/
theorem get_music_some {sim : String → String → ℚ} {fuzz : ℚ}
    {anyAlbum : Bool} {c : Client} {d : TrackDescriptor} {i : String}
    (h : get_music sim fuzz anyAlbum c d = some i) :
    ∃ a ∈ get_all_albums c d.artistName, ∃ t ∈ c.tracks a.id,
      t.id = i ∧ sim t.name d.trackName ≥ fuzz ∧
      (anyAlbum = false → sim a.name d.albumName ≥ fuzz) := by
  unfold get_music at h
  cases hf : named_album_search sim fuzz c d with
  | some item =>
    rw [hf] at h
    obtain ⟨hmem, hp⟩ := named_album_search_some hf
    obtain ⟨a, ha, hsim, hmem', _⟩ := mem_get_all_tracks hmem
    exact ⟨a, ha, item, hmem', Option.some.inj h, hp, fun _ => hsim⟩
  | none =>
    rw [hf] at h
    cases hany : anyAlbum with
    | false => rw [hany] at h; simp at h
    | true =>
      rw [hany] at h
      rw [if_pos rfl] at h
      obtain ⟨album, halbum, item, hmem, hid, hp⟩ := any_album_search_some h
      obtain ⟨a, ha, _, hmem', _⟩ := mem_get_all_tracks hmem
      exact ⟨a, ha, item, hmem', hid, hp, fun hcon => absurd hcon (by decide)⟩

/-- When no track of any album of the artist matches the descriptor's
`trackName` at the threshold, `get_music` reports the track unresolved. -/
theorem get_music_none_of_no_match {sim : String → String → ℚ} {fuzz : ℚ}
    {anyAlbum : Bool} {c : Client} {d : TrackDescriptor}
    (h : ∀ a ∈ get_all_albums c d.artistName, ∀ t ∈ c.tracks a.id,
      ¬ (sim t.name d.trackName ≥ fuzz)) :
    get_music sim fuzz anyAlbum c d = none := by
  have hfind : ∀ album, (get_all_tracks sim fuzz c d.artistName album).find?
      (fun item => decide (sim item.name d.trackName ≥ fuzz)) = none := by
    intro album
    rw [List.find?_eq_none]
    intro t ht
    obtain ⟨a, ha, _, hmem, _⟩ := mem_get_all_tracks ht
    simpa using h a ha t hmem
  have hnamed : named_album_search sim fuzz c d = none := hfind d.albumName
  have hany : any_album_search sim fuzz c d = none := by
    rw [any_album_search, List.findSome?_eq_none_iff]
    intro album _
    rw [hfind album.name]
    rfl
  unfold get_music
  rw [hnamed]
  cases anyAlbum with
  | false => rfl
  | true => rw [if_pos rfl]; exact hany

/-- In a pairwise-related list, every element is the last one or relates to
the last one. -/
theorem pairwise_getLast {α : Type} {R : α → α → Prop} {l : List α} {a : α}
    (hp : l.Pairwise R) (h : l.getLast? = some a) :
    ∀ b ∈ l, b = a ∨ R b a := by
  induction l with
  | nil => simp at h
  | cons x l ih =>
    rw [List.pairwise_cons] at hp
    intro b hb
    cases l with
    | nil =>
      simp only [List.getLast?_singleton, Option.some.injEq] at h
      simp only [List.mem_singleton] at hb
      exact Or.inl (hb.trans h)
    | cons y l' =>
      rw [List.getLast?_cons_cons] at h
      rcases List.mem_cons.mp hb with rfl | hbl
      · exact Or.inr (hp.1 a (List.mem_of_mem_getLast? h))
      · exact ih hp.2 h b hbl

/-- No call the program issues shrinks a playlist's membership. -/
theorem membership_after_mono (pid : String) :
    ∀ (calls : List Call) (current : Finset String),
      current ⊆ membership_after current calls pid
  | [], _ => Finset.Subset.refl _
  | call :: calls, current => by
    have hstep : current ⊆ (match call with
        | Call.appendItems q ids =>
            if q = pid then current ∪ ids else current
        | Call.createPlaylist _ _ _ => current) := by
      cases call with
      | appendItems q ids =>
        by_cases hq : q = pid
        · simp only [if_pos hq]; exact Finset.subset_union_left
        · simp only [if_neg hq]; exact Finset.Subset.refl _
      | createPlaylist _ _ _ => exact Finset.Subset.refl _
    exact hstep.trans (membership_after_mono pid calls _)

/-- The memoized runner returns exactly the unmemoized results and issues
one underlying query per argument not already in the table. -/
theorem memo_run_spec {κ α : Type} [DecidableEq κ] (f : κ → α) :
    ∀ (ks : List κ) (cache : List (κ × α)),
      (∀ e ∈ cache, e.2 = f e.1) →
      (memo_run f ks cache).1 = ks.map f ∧
      (memo_run f ks cache).2
        = (ks.toFinset \ (cache.map Prod.fst).toFinset).card
  | [], cache, _ => by simp [memo_run]
  | k :: ks, cache, hc => by
    rw [memo_run, memo_call]
    cases hf : cache.find? (fun e => decide (e.1 = k)) with
    | some e =>
      have he : e ∈ cache := List.mem_of_find?_eq_some hf
      have hek : e.1 = k := by simpa using List.find?_some hf
      have hkmem : k ∈ (cache.map Prod.fst).toFinset := by
        rw [List.mem_toFinset, List.mem_map]
        exact ⟨e, he, hek⟩
      obtain ⟨ih1, ih2⟩ := memo_run_spec f ks cache hc
      refine ⟨?_, ?_⟩
      · simp only [List.map_cons, ih1, List.cons.injEq]
        exact ⟨(hc e he).trans (congrArg f hek), trivial⟩
      · simp only [ih2, Nat.zero_add, List.toFinset_cons,
          Finset.insert_sdiff_of_mem _ hkmem]
    | none =>
      have hknot : k ∉ (cache.map Prod.fst).toFinset := by
        rw [List.mem_toFinset, List.mem_map]
        rintro ⟨e, he, hek⟩
        have := List.find?_eq_none.mp hf e he
        simp [hek] at this
      have hc' : ∀ e ∈ (k, f k) :: cache, e.2 = f e.1 := by
        intro e he
        cases he with
        | head => rfl
        | tail _ h => exact hc e h
      obtain ⟨ih1, ih2⟩ := memo_run_spec f ks ((k, f k) :: cache) hc'
      refine ⟨by simp only [List.map_cons, ih1], ?_⟩
      simp only [ih2, List.map_cons, List.toFinset_cons]
      rw [Finset.sdiff_insert, Finset.insert_sdiff_of_not_mem _ hknot]
      by_cases hk : k ∈ ks.toFinset \ (cache.map Prod.fst).toFinset
      · rw [Finset.insert_eq_self.mpr hk,
          ← Finset.card_erase_add_one hk, Nat.add_comm]
      · rw [Finset.card_insert_of_not_mem hk, Finset.erase_eq_of_not_mem hk,
          Nat.add_comm]

end Jsi

namespace Jsi

/-- Claim C1 (amended): for every similarity function, threshold and
descriptor, `get_music` returns an id only if some album of the artist
contains a track with that id whose name matches the descriptor's
`trackName` at the threshold, and — when the any-album flag is unset — the
album it was found through matches the descriptor's `albumName` at the
threshold; when no track of the artist matches, it returns `none`. -/
theorem get_music_threshold (sim : String → String → ℚ) (fuzz : ℚ)
    (anyAlbum : Bool) (c : Client) (d : TrackDescriptor) :
    (∀ i, get_music sim fuzz anyAlbum c d = some i →
      ∃ a ∈ get_all_albums c d.artistName, ∃ t ∈ c.tracks a.id,
        t.id = i ∧ sim t.name d.trackName ≥ fuzz ∧
        (anyAlbum = false → sim a.name d.albumName ≥ fuzz)) ∧
    ((∀ a ∈ get_all_albums c d.artistName, ∀ t ∈ c.tracks a.id,
        ¬ (sim t.name d.trackName ≥ fuzz)) →
      get_music sim fuzz anyAlbum c d = none) :=
  ⟨fun _ h => get_music_some h, get_music_none_of_no_match⟩

/-- Claim C1, counterexample to the claim as stated: with the any-album
flag set and threshold 100, `get_music` resolves the descriptor
`⟨T, ar, Y⟩` to `tid`, yet the only album of the artist — the one the
track was found through — is named `X`, whose similarity to the
descriptor's album `Y` is 0 < 100. -/
theorem get_music_album_similarity_cex :
    get_music exSim 100 true exClient exDesc = some "tid" ∧
    get_all_albums exClient exDesc.artistName = [⟨"alid", "X", 2000⟩] ∧
    exClient.tracks "alid" = [⟨"tid", "T"⟩] ∧
    exSim "X" exDesc.albumName < 100 := by decide

/-- Claim C1, witness: the amended theorem at a concrete resolving input. -/
theorem get_music_threshold_witness :
    ∃ a ∈ get_all_albums wClient dOne.artistName, ∃ t ∈ wClient.tracks a.id,
      t.id = "t1" ∧ exSim t.name dOne.trackName ≥ 100 ∧
      (false = false → exSim a.name dOne.albumName ≥ 100) :=
  (get_music_threshold exSim 100 false wClient dOne).1 "t1" (by decide)

/-- Claim C2: when the existing remote playlist already contains every
resolved identifier, `create_playlist` issues no call at all. -/
theorem create_playlist_synced_no_update (sim : String → String → ℚ)
    (fuzz : ℚ) (anyAlbum isPublic dryRun : Bool) (c : Client) (name : String)
    (tracks : List (Option TrackDescriptor)) (p : Playlist)
    (hp : get_playlist c name = some p)
    (hsub : resolved_tracks sim fuzz anyAlbum c tracks
      ⊆ get_playlist_items c name) :
    create_playlist sim fuzz anyAlbum isPublic dryRun c name tracks = [] := by
  have hdiff : resolved_tracks sim fuzz anyAlbum c tracks
      \ get_playlist_items c name = ∅ :=
    Finset.sdiff_eq_empty_iff_subset.mpr hsub
  unfold create_playlist
  by_cases hne : resolved_tracks sim fuzz anyAlbum c tracks = ∅
  · simp [hne]
  · simp [hne, hp, hdiff]

/-- Claim C2, witness: re-running against the already-synced playlist
`mylist` issues nothing. -/
theorem create_playlist_synced_no_update_witness :
    create_playlist exSim 100 false false false wClient "mylist"
      [some dTwo] = [] :=
  create_playlist_synced_no_update exSim 100 false false false wClient
    "mylist" [some dTwo] ⟨"pl1", "mylist"⟩ (by decide) (by decide)

end Jsi

namespace Jsi

/-- Claim C3 (amended): a CSV header missing a required column makes the
run exit with code 1 and issue no library or playlist call — but the
client authentication and the user lookup have already hit the network
before the exit. -/
theorem main_csv_missing_columns (sim : String → String → ℚ) (fuzz : ℚ)
    (anyAlbum isPublic dryRun : Bool) (c : Client) (users : List User)
    (username stem : String) (fieldnames : List String)
    (rows : List TrackDescriptor)
    (hmiss : ¬ requiredFields.all (fun f => fieldnames.contains f) = true) :
    main_csv sim fuzz anyAlbum isPublic dryRun c users username stem
      fieldnames rows = ([NetEvent.authenticate, NetEvent.getUsers], some 1) := by
  unfold main_csv
  cases hu : get_user_id users username with
  | none => rfl
  | some uid =>
    dsimp only
    rw [if_neg hmiss]

/-- Claim C3, counterexample to the claim as stated: on the header `[foo]`
(missing every required column) the run exits with code 1, but the
authentication and user-lookup network calls have already been issued
before the exit, so the run is not free of network calls. -/
theorem main_csv_network_before_exit_cex :
    main_csv exSim 100 false false false exClient [⟨"u", "uid"⟩] "u" "pl"
      ["foo"] [] = ([NetEvent.authenticate, NetEvent.getUsers], some 1) ∧
    ([NetEvent.authenticate, NetEvent.getUsers] : List NetEvent) ≠ [] := by
  decide

/-- Claim C3, witness: the amended theorem at a header having only two of
the three required columns. -/
theorem main_csv_missing_columns_witness :
    main_csv exSim 100 false false false exClient [⟨"u", "uid"⟩] "u" "pl"
      ["trackName", "artistName"] []
      = ([NetEvent.authenticate, NetEvent.getUsers], some 1) :=
  main_csv_missing_columns exSim 100 false false false exClient
    [⟨"u", "uid"⟩] "u" "pl" ["trackName", "artistName"] [] (by decide)

/-- Claim C4: an input with an empty resolved set produces no call at all
(in particular no playlist creation), and duplicated input rows change
nothing — the resolved identifiers are collected as a set. -/
theorem create_playlist_empty_and_dedup (sim : String → String → ℚ)
    (fuzz : ℚ) (anyAlbum isPublic dryRun : Bool) (c : Client) (name : String)
    (tracks : List (Option TrackDescriptor)) :
    (resolved_tracks sim fuzz anyAlbum c tracks = ∅ →
      create_playlist sim fuzz anyAlbum isPublic dryRun c name tracks = []) ∧
    create_playlist sim fuzz anyAlbum isPublic dryRun c name (tracks ++ tracks)
      = create_playlist sim fuzz anyAlbum isPublic dryRun c name tracks := by
  constructor
  · intro h
    unfold create_playlist
    simp [h]
  · have hres : resolved_tracks sim fuzz anyAlbum c (tracks ++ tracks)
        = resolved_tracks sim fuzz anyAlbum c tracks := by
      unfold resolved_tracks
      rw [List.filterMap_append, List.toFinset_append, Finset.union_self]
    unfold create_playlist
    rw [hres]

/-- Claim C4, witness: a track list resolving to nothing issues no call. -/
theorem create_playlist_empty_and_dedup_witness :
    create_playlist exSim 100 false false false wClient "newlist"
      [some ⟨"Nope", "artist", "Alpha"⟩] = [] :=
  (create_playlist_empty_and_dedup exSim 100 false false false wClient
    "newlist" [some ⟨"Nope", "artist", "Alpha"⟩]).1 (by decide)

/-- Claim C5: against an existing playlist, every call `create_playlist`
issues is the single append of exactly the set difference between the
resolved identifiers and the current membership (so at most one append and
never a creation); when the difference is nonempty and dry-run is off,
exactly that one append is issued; and no issued call ever shrinks the
playlist's membership. -/
theorem create_playlist_existing_only_appends_diff (sim : String → String → ℚ)
    (fuzz : ℚ) (anyAlbum isPublic dryRun : Bool) (c : Client) (name : String)
    (tracks : List (Option TrackDescriptor)) (p : Playlist)
    (hp : get_playlist c name = some p) :
    (∀ call ∈ create_playlist sim fuzz anyAlbum isPublic dryRun c name tracks,
      call = Call.appendItems p.id
        (resolved_tracks sim fuzz anyAlbum c tracks
          \ get_playlist_items c name)) ∧
    (dryRun = false →
      resolved_tracks sim fuzz anyAlbum c tracks ≠ ∅ →
      resolved_tracks sim fuzz anyAlbum c tracks
          \ get_playlist_items c name ≠ ∅ →
      create_playlist sim fuzz anyAlbum isPublic dryRun c name tracks
        = [Call.appendItems p.id
            (resolved_tracks sim fuzz anyAlbum c tracks
              \ get_playlist_items c name)]) ∧
    (∀ current : Finset String,
      current ⊆ membership_after current
        (create_playlist sim fuzz anyAlbum isPublic dryRun c name tracks)
        p.id) := by
  refine ⟨?_, ?_, fun current => membership_after_mono p.id _ current⟩
  · intro call hcall
    unfold create_playlist at hcall
    by_cases hne : resolved_tracks sim fuzz anyAlbum c tracks = ∅
    · simp [hne] at hcall
    · by_cases hd : resolved_tracks sim fuzz anyAlbum c tracks
          \ get_playlist_items c name = ∅
      · simp [hne, hp, hd] at hcall
      · cases dryRun with
        | true => simp [hne, hp, hd] at hcall
        | false =>
          simp only [ne_eq, hne, not_false_eq_true, if_pos, hp,
            Bool.not_false, if_true] at hcall
          simp [hd] at hcall
          exact hcall
  · intro hdr hne hd
    subst hdr
    unfold create_playlist
    simp [hne, hp, hd]

/-- Claim C5, witness: syncing `[Song One, Song Two]` against `mylist`
(which already holds `t2`) issues exactly one append of `{t1}`. -/
theorem create_playlist_existing_only_appends_diff_witness :
    create_playlist exSim 100 false false false wClient "mylist"
      [some dOne, some dTwo]
      = [Call.appendItems "pl1"
          (resolved_tracks exSim 100 false wClient [some dOne, some dTwo]
            \ get_playlist_items wClient "mylist")] :=
  (create_playlist_existing_only_appends_diff exSim 100 false false false
    wClient "mylist" [some dOne, some dTwo] ⟨"pl1", "mylist"⟩
    (by decide)).2.1 rfl (by decide) (by decide)

end Jsi

namespace Jsi

/-- Claim C6: when the named-album search finds no match and the any-album
flag is set, `get_music` runs the fallback search over every album of the
artist with the same threshold: it reports the track unresolved (`none`,
never an error) exactly when the per-album searches all fail, and
otherwise returns an id found by that fallback with track-name similarity
at the threshold. -/
theorem get_music_any_album_fallback (sim : String → String → ℚ) (fuzz : ℚ)
    (c : Client) (d : TrackDescriptor)
    (hfail : named_album_search sim fuzz c d = none) :
    get_music sim fuzz true c d = any_album_search sim fuzz c d ∧
    (get_music sim fuzz true c d = none ↔
      ∀ album ∈ get_all_albums c d.artistName,
        ∀ item ∈ get_all_tracks sim fuzz c d.artistName album.name,
          ¬ (sim item.name d.trackName ≥ fuzz)) ∧
    (∀ i, get_music sim fuzz true c d = some i →
      ∃ album ∈ get_all_albums c d.artistName,
        ∃ item ∈ get_all_tracks sim fuzz c d.artistName album.name,
          item.id = i ∧ sim item.name d.trackName ≥ fuzz) := by
  have heq : get_music sim fuzz true c d = any_album_search sim fuzz c d := by
    unfold get_music
    rw [hfail]
    rfl
  refine ⟨heq, ?_, ?_⟩
  · rw [heq]
    unfold any_album_search
    rw [List.findSome?_eq_none_iff]
    constructor
    · intro h album halbum item hitem hsim
      have hmap := h album halbum
      rw [Option.map_eq_none'] at hmap
      rw [List.find?_eq_none] at hmap
      exact absurd (by simpa using hsim) (by simpa using hmap item hitem)
    · intro h album halbum
      have hnone : (get_all_tracks sim fuzz c d.artistName album.name).find?
          (fun item => decide (sim item.name d.trackName ≥ fuzz)) = none := by
        rw [List.find?_eq_none]
        intro item hitem
        simpa using h album halbum item hitem
      rw [hnone]
      rfl
  · intro i hi
    rw [heq] at hi
    exact any_album_search_some hi

/-- Claim C6, witness: on `exClient` the named search for album `Y` fails
and the fallback over the artist's albums resolves the track. -/
theorem get_music_any_album_fallback_witness :
    get_music exSim 100 true exClient exDesc
      = any_album_search exSim 100 exClient exDesc :=
  (get_music_any_album_fallback exSim 100 exClient exDesc (by decide)).1

/-- Claim C7 (amended): the threshold is configurable exactly over 80–100
(`click.IntRange(80, 100)`), not 0–100, and when the flag is omitted the
default 100 demands an exact match: a score bounded by 100 reaches the
default threshold exactly when it equals 100. -/
theorem fuzz_range (t : Int) :
    (fuzz_option_accepts t = true ↔ 80 ≤ t ∧ t ≤ 100) ∧
    fuzz_default = 100 ∧
    ∀ q : ℚ, q ≤ 100 → ((fuzz_default : ℚ) ≤ q ↔ q = 100) := by
  have h100 : (fuzz_default : ℚ) = 100 := by norm_num [fuzz_default]
  refine ⟨?_, rfl, ?_⟩
  · simp [fuzz_option_accepts]
  · intro q hq
    rw [h100]
    constructor
    · intro h
      exact le_antisymm hq h
    · intro h
      rw [h]

/-- Claim C7, counterexample to the claim as stated: 0 lies in 0–100 but
the option validator rejects `--fuzz 0`. -/
theorem fuzz_range_cex :
    ((0 : Int) ≤ 0 ∧ (0 : Int) ≤ 100) ∧ fuzz_option_accepts 0 = false := by
  decide

/-- Claim C7, witness: the amended theorem at threshold 100. -/
theorem fuzz_range_witness :
    fuzz_option_accepts 100 = true ∧ fuzz_default = 100 :=
  ⟨(fuzz_range 100).1.mpr (by decide), (fuzz_range 100).2.1⟩

/-- Claim C8: within a run, memoized `get_all_albums` and `get_all_tracks`
lookup sequences return exactly the unmemoized results, and the number of
underlying remote queries equals the number of distinct argument tuples —
at most one query per distinct artist, resp. artist/album pair. -/
theorem memoized_lookups (sim : String → String → ℚ) (fuzz : ℚ) (c : Client)
    (artists : List String) (pairs : List (String × String)) :
    ((memo_run (get_all_albums c) artists []).1
        = artists.map (get_all_albums c) ∧
      (memo_run (get_all_albums c) artists []).2 = artists.toFinset.card) ∧
    ((memo_run (fun p : String × String => get_all_tracks sim fuzz c p.1 p.2)
        pairs []).1
        = pairs.map (fun p => get_all_tracks sim fuzz c p.1 p.2) ∧
      (memo_run (fun p : String × String => get_all_tracks sim fuzz c p.1 p.2)
        pairs []).2 = pairs.toFinset.card) := by
  have h1 := memo_run_spec (get_all_albums c) artists []
    (by intro e he; cases he)
  have h2 := memo_run_spec
    (fun p : String × String => get_all_tracks sim fuzz c p.1 p.2) pairs []
    (by intro e he; cases he)
  simpa using ⟨h1, h2⟩

/-- Claim C8, witness: looking the same artist up twice answers both
lookups but issues a single remote query. -/
theorem memoized_lookups_witness :
    (memo_run (get_all_albums wClient) ["artist", "artist"] []).2 = 1 := by
  have h := (memoized_lookups exSim 100 wClient ["artist", "artist"] []).1.2
  rw [h]
  decide

/-- Claim C9: when the artist's (ProductionYear-ascending) album listing
has at least one album matching the queried name at the threshold,
`get_all_tracks` returns exactly the track listing of the last matching
album — one of maximal production year among the matches — so the track
lists of all earlier matching albums are dropped. -/
theorem get_all_tracks_last_matching (sim : String → String → ℚ) (fuzz : ℚ)
    (c : Client) (artist album : String) (a : Album)
    (hsorted : (get_all_albums c artist).Pairwise
      (fun x y => x.productionYear ≤ y.productionYear))
    (hlast : (matching_albums sim fuzz c artist album).getLast? = some a) :
    get_all_tracks sim fuzz c artist album = c.tracks a.id ∧
    ∀ b ∈ matching_albums sim fuzz c artist album,
      b.productionYear ≤ a.productionYear := by
  constructor
  · rw [get_all_tracks_eq, hlast]
    rfl
  · intro b hb
    have hpw : (matching_albums sim fuzz c artist album).Pairwise
        (fun x y => x.productionYear ≤ y.productionYear) :=
      hsorted.sublist (List.filter_sublist _)
    rcases pairwise_getLast hpw hlast b hb with h | h
    · rw [h]
    · exact h

/-- Claim C9, witness: two albums both named `Gamma` match; the returned
listing is that of the later album `alb2`, and `alb1`'s track is absent. -/
theorem get_all_tracks_last_matching_witness :
    get_all_tracks exSim 100 w9Client "artist" "Gamma"
      = w9Client.tracks "alb2" :=
  (get_all_tracks_last_matching exSim 100 w9Client "artist" "Gamma"
    ⟨"alb2", "Gamma", 1995⟩ (by decide) (by decide)).1

/-- Claim C10: with the dry-run flag set, `create_playlist` issues no POST
at all — neither a playlist creation nor an item append — so the remote
playlist state is untouched. -/
theorem create_playlist_dry_run (sim : String → String → ℚ) (fuzz : ℚ)
    (anyAlbum isPublic : Bool) (c : Client) (name : String)
    (tracks : List (Option TrackDescriptor)) :
    create_playlist sim fuzz anyAlbum isPublic true c name tracks = [] := by
  unfold create_playlist
  by_cases hne : resolved_tracks sim fuzz anyAlbum c tracks = ∅
  · simp [hne]
  · cases hp : get_playlist c name with
    | some p =>
      by_cases hd : resolved_tracks sim fuzz anyAlbum c tracks
          \ get_playlist_items c name = ∅
      · simp [hne, hp, hd]
      · simp [hne, hp, hd]
    | none => simp [hne, hp]

/-- Claim C10, witness: a dry run over inputs that would otherwise append
to `mylist` issues nothing. -/
theorem create_playlist_dry_run_witness :
    create_playlist exSim 100 false false true wClient "mylist"
      [some dOne, some dTwo] = [] :=
  create_playlist_dry_run exSim 100 false false wClient "mylist"
    [some dOne, some dTwo]

end Jsi
